import Mathlib

/-!
Verification development for the LiDAR packet capture / record / replay
subsystem (`lidar/lidar_reader.py`, `lidar/lidar_processing.py`).

Shallow embedding conventions:

* A file's contents are a `List Nat` of byte values.
* `struct.Struct("dI")` packs an 8-byte IEEE-754 double followed by a 4-byte
  unsigned int in native byte order (size 12, no padding on the platforms the
  code targets).  The double's 64-bit pattern is modelled as a `Nat`
  (`tsBits`), serialized little-endian (the fixed native order of the host);
  pack/unpack of a double is a bit-exact bijection with its 8-byte encoding,
  so the byte-level model is faithful.
* Wall-clock instants and float timestamps used arithmetically (replayer
  pacing, recorder duration checks) are modelled as exact rationals `ℚ`.
* Socket and file I/O are modelled by explicit event traces; exceptions are
  modelled with `Except` / sum-like outcomes.
-/

namespace LidarSpec

/-- Little-endian value of a byte list: `leNum [b0, b1, ...] = b0 + 256*b1 + ...`,
the inverse of `struct` unpacking of an unsigned field. -/
def leNum : List Nat → Nat
  | [] => 0
  | b :: bs => b + 256 * leNum bs

/-- `w`-byte little-endian encoding of `n` (mod `256^w`), the model of
`struct` packing of a fixed-width unsigned field in the host's native order. -/
def leBytes : Nat → Nat → List Nat
  | 0, _ => []
  | w + 1, n => (n % 256) :: leBytes w (n / 256)

/-- `LidarPacket` from `lidar_reader.py`: a host-side timestamp plus the raw
UDP payload.  `tsBits` is the 64-bit IEEE-754 pattern of the float timestamp. -/
structure LidarPacket where
  tsBits : Nat
  data : List Nat
deriving DecidableEq, Repr

/-- `LidarLogger.HEADER.size`: `struct.Struct("dI")` occupies 12 bytes. -/
def headerSize : Nat := 12

/-- One record as written by `LidarLogger.record`:
`HEADER.pack(pkt.timestamp, len(pkt.data))` followed by the raw payload. -/
def encodeRecord (p : LidarPacket) : List Nat :=
  leBytes 8 p.tsBits ++ leBytes 4 p.data.length ++ p.data

/-- The bytes a whole recording session appends to the `.bin` file: the
records in arrival order, nothing else (no file header, no end marker). -/
def writeLog (ps : List LidarPacket) : List Nat :=
  (ps.map encodeRecord).flatten

/-- `LidarReplayer._packet_generator`: repeatedly read 12 header bytes (stop
if fewer remain), unpack `(ts, length)`, read `length` payload bytes (stop if
fewer remain), yield the packet and continue. -/
def packetGenerator (bs : List Nat) : List LidarPacket :=
  if h : bs.length < headerSize then []
  else
    let hdr := bs.take headerSize
    let ts := leNum (hdr.take 8)
    let len := leNum (hdr.drop 8)
    let rest := bs.drop headerSize
    let data := rest.take len
    if data.length < len then []
    else ⟨ts, data⟩ :: packetGenerator (rest.drop len)
termination_by bs.length
decreasing_by
  simp only [headerSize, List.length_drop] at h ⊢
  omega

/-- The loop body of `lidar_processing.load_packets`, with the `packets`
list it appends to passed explicitly. -/
def loadLoop (bs : List Nat) (packets : List LidarPacket) : List LidarPacket :=
  if h : bs.length < headerSize then packets
  else
    let hdr := bs.take headerSize
    let ts := leNum (hdr.take 8)
    let len := leNum (hdr.drop 8)
    let rest := bs.drop headerSize
    let data := rest.take len
    if data.length < len then packets
    else loadLoop (rest.drop len) (packets ++ [⟨ts, data⟩])
termination_by bs.length
decreasing_by
  simp only [headerSize, List.length_drop] at h ⊢
  omega

/-- `lidar_processing.load_packets`: run the loop with an empty accumulator. -/
def load_packets (bs : List Nat) : List LidarPacket :=
  loadLoop bs []

/-!  Replayer pacing (`LidarReplayer.packets_realtime`).  Here the timestamp
is used arithmetically, so packets carry a `ℚ` timestamp; `clock i` is the
`time.time()` reading taken in the loop iteration that emits the `i`-th
packet after the first. -/

/-- A decoded packet as the replayer's consumer sees it: numeric timestamp
(IEEE-754 double modelled as an exact rational) plus payload. -/
structure RPacket where
  ts : ℚ
  data : List Nat
deriving DecidableEq, Repr

/-- The `for pkt in gen` loop of `packets_realtime`: for each packet compute
`target_wall = t0_wall + (pkt.timestamp - t0_original)`, read the clock; if
the target is in the future sleep until it (emission at `target_wall`),
otherwise emit at once (emission at `now`).  Returns the (emission time,
packet) pairs. -/
def pace (t0o t0w : ℚ) (clock : Nat → ℚ) : List RPacket → Nat → List (ℚ × RPacket)
  | [], _ => []
  | p :: ps, i =>
    let target := t0w + (p.ts - t0o)
    let now := clock i
    let emit := if target > now then target else now
    (emit, p) :: pace t0o t0w clock ps (i + 1)

/-- `LidarReplayer.packets_realtime` on the decoded packet stream: an empty
stream yields nothing; otherwise the first packet is emitted immediately at
`t0w` (the wall clock at replay start) and the rest are paced against the
fixed pair `(t0_original, t0_wall)` taken from the first packet. -/
def packets_realtime (clock : Nat → ℚ) (t0w : ℚ) : List RPacket → List (ℚ × RPacket)
  | [] => []
  | first :: rest => (t0w, first) :: pace first.ts t0w clock rest 0

/-!  Live receiver (`VelodyneReceiver.receive`). -/

/-- What the blocking `recvfrom` call did: delivered a datagram (with the
host-clock reading `time.time()` taken right after), or raised
`socket.timeout`. -/
inductive NetEvent where
  | datagram (data : List Nat) (now : ℚ)
  | timedOut
deriving DecidableEq, Repr

/-- The errors `receive` can raise. -/
inductive RecvError where
  | runtimeError
deriving DecidableEq, Repr

/-- `VelodyneReceiver.receive`: raise `RuntimeError` if `connect` has not
set the socket; on `socket.timeout` return `None`; otherwise stamp the
datagram with the current time and return the packet. -/
def receive (sock : Option Unit) (ev : NetEvent) : Except RecvError (Option RPacket) :=
  match sock with
  | none => .error .runtimeError
  | some _ =>
    match ev with
    | .timedOut => .ok none
    | .datagram data now => .ok (some ⟨now, data⟩)

/-!  Recorder loop (`LidarLogger.record`).  Each loop iteration is driven by
one trace entry `(now, ev)`: `now` is the `time.time()` reading of the
duration check at the top of the iteration, and `ev` is what happened in the
body — `receive` timed out, a packet arrived (with its own receive-time
stamp), `KeyboardInterrupt` was raised, or the file write raised an I/O
error. -/

/-- One loop iteration's outcome event. -/
inductive RecEvent where
  | timedOut
  | pkt (ts : ℚ) (data : List Nat)
  | interrupt
  | ioError
deriving DecidableEq, Repr

/-- How the `while True` loop was left. -/
inductive ExitKind where
  | durationDone
  | interrupted
  | ioFailed
deriving DecidableEq, Repr

/-- State of the loop when the trace is exhausted (`running`: the session is
still polling) or when an exit path was taken (`exited`). -/
inductive LoopOutcome where
  | running (written : List (ℚ × List Nat)) (count idles : Nat)
  | exited (exit : ExitKind) (written : List (ℚ × List Nat)) (count idles : Nat)
      (stopTime : ℚ)
deriving DecidableEq, Repr

/-- Records written to the binary file so far. -/
def LoopOutcome.written : LoopOutcome → List (ℚ × List Nat)
  | .running w _ _ => w
  | .exited _ w _ _ _ => w

/-- Packet count so far. -/
def LoopOutcome.count : LoopOutcome → Nat
  | .running _ c _ => c
  | .exited _ _ c _ _ => c

/-- The guard `duration_sec is not None and (time.time() - t0) >= duration_sec`. -/
def durElapsed (dur : Option ℚ) (t0 now : ℚ) : Bool :=
  match dur with
  | some d => decide (d ≤ now - t0)
  | none => false

/-- The `while True` body of `LidarLogger.record`: check the duration first;
on timeout print the idle notice and continue; on a packet pack the header,
write header and payload, bump the count; `KeyboardInterrupt` and write
errors leave the loop. -/
def recordLoop (t0 : ℚ) (dur : Option ℚ) (written : List (ℚ × List Nat))
    (count idles : Nat) : List (ℚ × RecEvent) → LoopOutcome
  | [] => .running written count idles
  | (now, ev) :: rest =>
    if durElapsed dur t0 now then .exited .durationDone written count idles now
    else
      match ev with
      | .timedOut => recordLoop t0 dur written count (idles + 1) rest
      | .pkt ts data => recordLoop t0 dur (written ++ [(ts, data)]) (count + 1) idles rest
      | .interrupt => .exited .interrupted written count idles now
      | .ioError => .exited .ioFailed written count idles now

/-- What the `finally` block leaves behind once the session has ended. -/
structure RecordResult where
  exit : ExitKind
  written : List (ℚ × List Nat)
  count : Nat
  stopTime : ℚ
  closed : Bool
  reportedCount : Option Nat
  reportedBinPath : Bool
  reportedMetaPath : Bool
deriving DecidableEq, Repr

/-- `LidarLogger.record` around the loop: the `try`-body runs the loop, and
the `finally` block — executed whether the loop broke on duration, was
interrupted, or an I/O error propagated — closes the file and prints the
final packet count and both file paths.  `none` means the trace ended with
the session still recording. -/
def record (t0 : ℚ) (dur : Option ℚ) (trace : List (ℚ × RecEvent)) :
    Option RecordResult :=
  match recordLoop t0 dur [] 0 0 trace with
  | .running _ _ _ => none
  | .exited e w c _ stop =>
    some { exit := e, written := w, count := c, stopTime := stop,
           closed := true, reportedCount := some c,
           reportedBinPath := true, reportedMetaPath := true }

/-- The host-clock readings a trace mentions, in program order: the duration
check's reading, then (for a delivered packet) the receive-time stamp. -/
def eventTimes : List (ℚ × RecEvent) → List ℚ
  | [] => []
  | (now, .pkt ts _) :: rest => now :: ts :: eventTimes rest
  | (now, _) :: rest => now :: eventTimes rest

/-!  Lemmas about the little-endian field encoding. -/

theorem leBytes_length (w n : Nat) : (leBytes w n).length = w := by
  induction w generalizing n with
  | zero => rfl
  | succ w ih => simp [leBytes, ih]

theorem leNum_leBytes (w n : Nat) (h : n < 256 ^ w) : leNum (leBytes w n) = n := by
  induction w generalizing n with
  | zero =>
    simp only [pow_zero, Nat.lt_one_iff] at h
    simp [leBytes, leNum, h]
  | succ w ih =>
    have hdiv : n / 256 < 256 ^ w := by
      apply Nat.div_lt_of_lt_mul
      rw [Nat.mul_comm, ← pow_succ]
      exact h
    simp only [leBytes, leNum, ih _ hdiv]
    omega

theorem encodeRecord_assoc (p : LidarPacket) (r : List Nat) :
    encodeRecord p ++ r =
      (leBytes 8 p.tsBits ++ leBytes 4 p.data.length) ++ (p.data ++ r) := by
  simp [encodeRecord]

/-- Decoding a well-formed record followed by anything yields that record and
continues on the remainder. -/
theorem packetGenerator_record_cons (p : LidarPacket) (r : List Nat)
    (hts : p.tsBits < 2 ^ 64) (hlen : p.data.length < 2 ^ 32) :
    packetGenerator (encodeRecord p ++ r) = p :: packetGenerator r := by
  have h8 : (leBytes 8 p.tsBits).length = 8 := leBytes_length ..
  have h4 : (leBytes 4 p.data.length).length = 4 := leBytes_length ..
  have hhdr : (leBytes 8 p.tsBits ++ leBytes 4 p.data.length).length = 12 := by
    simp [h8, h4]
  have hts256 : p.tsBits < 256 ^ 8 := by
    have : (256 : Nat) ^ 8 = 2 ^ 64 := by norm_num
    omega
  have hlen256 : p.data.length < 256 ^ 4 := by
    have : (256 : Nat) ^ 4 = 2 ^ 32 := by norm_num
    omega
  rw [packetGenerator]
  rw [encodeRecord_assoc]
  have hlength : ((leBytes 8 p.tsBits ++ leBytes 4 p.data.length) ++
      (p.data ++ r)).length = 12 + (p.data.length + r.length) := by
    simp [h8, h4]
    omega
  rw [dif_neg (by rw [hlength]; unfold headerSize; omega)]
  simp only [headerSize]
  rw [List.take_left' hhdr, List.drop_left' hhdr]
  rw [List.take_left' h8, List.drop_left' h8]
  rw [leNum_leBytes _ _ hts256, leNum_leBytes _ _ hlen256]
  rw [List.take_left' rfl, List.drop_left' rfl]
  rw [if_neg (by omega)]

theorem packetGenerator_nil : packetGenerator [] = [] := by
  rw [packetGenerator]
  simp [headerSize]

/-- Decoding the serialization of a packet list followed by any tail decodes
the packets, then continues on the tail. -/
theorem packetGenerator_writeLog_append (ps : List LidarPacket) (r : List Nat)
    (hb : ∀ p ∈ ps, p.tsBits < 2 ^ 64 ∧ p.data.length < 2 ^ 32) :
    packetGenerator (writeLog ps ++ r) = ps ++ packetGenerator r := by
  induction ps with
  | nil => simp [writeLog]
  | cons p ps ih =>
    have hp := hb p (List.mem_cons_self ..)
    have hrest : ∀ q ∈ ps, q.tsBits < 2 ^ 64 ∧ q.data.length < 2 ^ 32 :=
      fun q hq => hb q (List.mem_cons_of_mem _ hq)
    have hw : writeLog (p :: ps) ++ r = encodeRecord p ++ (writeLog ps ++ r) := by
      simp [writeLog]
    rw [hw, packetGenerator_record_cons p _ hp.1 hp.2, ih hrest]
    rfl

/-- Claim C1: serializing a sequence of packets whose timestamps are 64-bit
patterns and whose payload lengths fit an unsigned 32-bit count, then decoding
the concatenated bytes with the reader, yields the same sequence in order. -/
theorem c1_roundtrip (ps : List LidarPacket)
    (hb : ∀ p ∈ ps, p.tsBits < 2 ^ 64 ∧ p.data.length < 2 ^ 32) :
    packetGenerator (writeLog ps) = ps := by
  have h := packetGenerator_writeLog_append ps [] hb
  rw [List.append_nil] at h
  rw [h, packetGenerator_nil, List.append_nil]

/-- Witness for C1 at a concrete two-packet sequence. -/
theorem c1_roundtrip_witness :
    (∀ p ∈ [LidarPacket.mk 7 [1, 2, 3], LidarPacket.mk 9 []],
        p.tsBits < 2 ^ 64 ∧ p.data.length < 2 ^ 32) ∧
      packetGenerator (writeLog [LidarPacket.mk 7 [1, 2, 3], LidarPacket.mk 9 []]) =
        [LidarPacket.mk 7 [1, 2, 3], LidarPacket.mk 9 []] :=
  ⟨by decide, c1_roundtrip _ (by decide)⟩

/-!  Claim C3: the bulk loader and the lazy generator share one decode
semantics. -/

theorem loadLoop_eq_append (bs : List Nat) (acc : List LidarPacket) :
    loadLoop bs acc = acc ++ packetGenerator bs := by
  have main : ∀ n (bs : List Nat), bs.length ≤ n →
      ∀ acc : List LidarPacket, loadLoop bs acc = acc ++ packetGenerator bs := by
    intro n
    induction n with
    | zero =>
      intro bs hb acc
      have hbs : bs.length < headerSize := by unfold headerSize; omega
      rw [loadLoop, packetGenerator, dif_pos hbs, dif_pos hbs, List.append_nil]
    | succ n ih =>
      intro bs hb acc
      rw [loadLoop, packetGenerator]
      by_cases hbs : bs.length < headerSize
      · rw [dif_pos hbs, dif_pos hbs, List.append_nil]
      · rw [dif_neg hbs, dif_neg hbs]
        simp only
        by_cases hs :
            (List.take (leNum (List.drop 8 (List.take headerSize bs)))
              (List.drop headerSize bs)).length <
              leNum (List.drop 8 (List.take headerSize bs))
        · rw [if_pos hs, if_pos hs, List.append_nil]
        · rw [if_neg hs, if_neg hs]
          rw [ih _ (by simp only [List.length_drop]; unfold headerSize at hbs ⊢; omega)]
          rw [List.append_assoc, List.singleton_append]
  exact main bs.length bs le_rfl acc

/-- Claim C3: on every file content, `load_packets` returns exactly the list
of packets the generator yields, in the same order. -/
theorem c3_two_modes (bs : List Nat) : load_packets bs = packetGenerator bs := by
  rw [load_packets, loadLoop_eq_append, List.nil_append]

/-!  Claim C2: truncation tolerance. -/

/-- Decoding a strict portion of a single well-formed record yields nothing:
the partial record is treated as end-of-stream. -/
theorem packetGenerator_take_record (p : LidarPacket) (j : Nat)
    (hts : p.tsBits < 2 ^ 64) (hlen : p.data.length < 2 ^ 32)
    (hj : j < (encodeRecord p).length) :
    packetGenerator ((encodeRecord p).take j) = [] := by
  have h8 : (leBytes 8 p.tsBits).length = 8 := leBytes_length ..
  have h4 : (leBytes 4 p.data.length).length = 4 := leBytes_length ..
  have hhdr : (leBytes 8 p.tsBits ++ leBytes 4 p.data.length).length = 12 := by
    simp [h8, h4]
  have hts256 : p.tsBits < 256 ^ 8 := by
    have : (256 : Nat) ^ 8 = 2 ^ 64 := by norm_num
    omega
  have hlen256 : p.data.length < 256 ^ 4 := by
    have : (256 : Nat) ^ 4 = 2 ^ 32 := by norm_num
    omega
  have hsplit : encodeRecord p =
      (leBytes 8 p.tsBits ++ leBytes 4 p.data.length) ++ p.data := by
    simp [encodeRecord]
  have hrec : (encodeRecord p).length = 12 + p.data.length := by
    rw [hsplit, List.length_append, hhdr]
  by_cases hsmall : j < 12
  · rw [packetGenerator, dif_pos]
    rw [List.length_take]
    unfold headerSize
    omega
  · rw [packetGenerator, dif_neg]
    swap
    · rw [List.length_take]
      unfold headerSize
      omega
    simp only
    have hhdrHS : (leBytes 8 p.tsBits ++ leBytes 4 p.data.length).length = headerSize :=
      hhdr
    have h1 : ((encodeRecord p).take j).take headerSize =
        leBytes 8 p.tsBits ++ leBytes 4 p.data.length := by
      rw [List.take_take, min_eq_left (by unfold headerSize; omega), hsplit,
        List.take_left' hhdrHS]
    have h2 : ((encodeRecord p).take j).drop headerSize =
        p.data.take (j - headerSize) := by
      rw [List.drop_take, hsplit, List.drop_left' hhdrHS]
    rw [h1, h2, List.take_left' h8, List.drop_left' h8,
      leNum_leBytes _ _ hts256, leNum_leBytes _ _ hlen256]
    rw [if_pos]
    simp only [List.length_take]
    unfold headerSize
    omega

/-- Claim C2: a well-formed log of `N` records truncated at a byte offset
strictly inside the last record decodes to exactly the first `N - 1` records;
no error is possible (the decoder is total). -/
theorem c2_truncation (ps : List LidarPacket) (hne : ps ≠ [])
    (hb : ∀ p ∈ ps, p.tsBits < 2 ^ 64 ∧ p.data.length < 2 ^ 32)
    (k : Nat) (hlo : (writeLog ps.dropLast).length < k)
    (hhi : k < (writeLog ps).length) :
    packetGenerator ((writeLog ps).take k) = ps.dropLast := by
  obtain ⟨qs, p, rfl⟩ : ∃ qs p, ps = qs ++ [p] :=
    ⟨ps.dropLast, ps.getLast hne, (List.dropLast_concat_getLast hne).symm⟩
  have hdrop : (qs ++ [p]).dropLast = qs := List.dropLast_concat
  rw [hdrop] at hlo ⊢
  have hp : p.tsBits < 2 ^ 64 ∧ p.data.length < 2 ^ 32 :=
    hb p (by simp)
  have hqs : ∀ q ∈ qs, q.tsBits < 2 ^ 64 ∧ q.data.length < 2 ^ 32 :=
    fun q hq => hb q (by simp [hq])
  have hw : writeLog (qs ++ [p]) = writeLog qs ++ encodeRecord p := by
    simp [writeLog]
  rw [hw] at hhi ⊢
  rw [List.take_append_eq_append_take,
    List.take_of_length_le (by omega)]
  rw [packetGenerator_writeLog_append qs _ hqs,
    packetGenerator_take_record p _ hp.1 hp.2
      (by rw [List.length_append] at hhi; omega),
    List.append_nil]

/-- Witness for C2: two records, truncated in the middle of the second
record's payload. -/
theorem c2_truncation_witness :
    ([LidarPacket.mk 7 [1, 2, 3], LidarPacket.mk 9 [4, 5]] ≠ [] ∧
      (∀ p ∈ [LidarPacket.mk 7 [1, 2, 3], LidarPacket.mk 9 [4, 5]],
        p.tsBits < 2 ^ 64 ∧ p.data.length < 2 ^ 32) ∧
      (writeLog ([LidarPacket.mk 7 [1, 2, 3],
        LidarPacket.mk 9 [4, 5]].dropLast)).length < 28 ∧
      28 < (writeLog [LidarPacket.mk 7 [1, 2, 3], LidarPacket.mk 9 [4, 5]]).length) ∧
    packetGenerator ((writeLog [LidarPacket.mk 7 [1, 2, 3],
        LidarPacket.mk 9 [4, 5]]).take 28) =
      [LidarPacket.mk 7 [1, 2, 3], LidarPacket.mk 9 [4, 5]].dropLast :=
  ⟨⟨by decide, by decide, by decide, by decide⟩,
    c2_truncation _ (by decide) (by decide) 28 (by decide) (by decide)⟩

/-!  Claim C4: replay pacing. -/

/-- Each paced packet is emitted at `max target now` where
`target = t0_wall + (pkt.timestamp - t0_original)` is computed from the fixed
first-record pair, never from the previous emission. -/
theorem pace_eq_enumFrom (t0o t0w : ℚ) (clock : Nat → ℚ) (ps : List RPacket) :
    ∀ i, pace t0o t0w clock ps i =
      (ps.enumFrom i).map
        (fun q => (max (t0w + (q.2.ts - t0o)) (clock q.1), q.2)) := by
  induction ps with
  | nil => intro i; rfl
  | cons p ps ih =>
    intro i
    rw [pace, List.enumFrom_cons, List.map_cons, ih (i + 1)]
    simp only
    congr 1
    by_cases h : t0w + (p.ts - t0o) > clock i
    · rw [if_pos h, max_eq_left (le_of_lt h)]
    · rw [if_neg h, max_eq_right (le_of_not_lt h)]

/-- Claim C4: on a non-empty decoded stream the replayer emits the first
packet immediately at replay start `t0w`; every later packet is emitted at
`max (t0w + (pkt.ts - first.ts)) now` — the target computed from the fixed
`(t0_original, t0_wall)` pair, slept on only when in the future — and the
emitted packet sequence is exactly the decoded sequence, in order. -/
theorem c4_replay_pacing (clock : Nat → ℚ) (t0w : ℚ) (first : RPacket)
    (rest : List RPacket) :
    packets_realtime clock t0w (first :: rest) =
      (t0w, first) ::
        rest.enum.map
          (fun q => (max (t0w + (q.2.ts - first.ts)) (clock q.1), q.2)) ∧
    (packets_realtime clock t0w (first :: rest)).map Prod.snd = first :: rest := by
  have h : packets_realtime clock t0w (first :: rest) =
      (t0w, first) :: pace first.ts t0w clock rest 0 := rfl
  rw [h, pace_eq_enumFrom]
  refine ⟨rfl, ?_⟩
  rw [List.map_cons, List.map_map]
  have hsnd : (Prod.snd ∘ fun q : Nat × RPacket =>
      (max (t0w + (q.2.ts - first.ts)) (clock q.1), q.2)) = Prod.snd := rfl
  rw [hsnd, List.enumFrom_map_snd]

/-!  Claim C5: the binary record format. -/

theorem writeLog_length (ps : List LidarPacket) :
    (writeLog ps).length = (ps.map (fun q => headerSize + q.data.length)).sum := by
  induction ps with
  | nil => rfl
  | cons p ps ih =>
    have h : writeLog (p :: ps) = encodeRecord p ++ writeLog ps := by
      simp [writeLog]
    rw [h, List.length_append, ih, List.map_cons, List.sum_cons]
    have h8 : (leBytes 8 p.tsBits).length = 8 := leBytes_length ..
    have h4 : (leBytes 4 p.data.length).length = 4 := leBytes_length ..
    simp [encodeRecord, h8, h4, headerSize]
    omega

/-- Claim C5: every record is a 12-byte header — the 8-byte encoding of the
timestamp's IEEE-754 pattern, then the 4-byte encoding of the payload
length, both produced by the same fixed byte-order encoding `leBytes` —
followed by exactly `length` payload bytes; a log file is exactly the
concatenation of its records, with no file-level header, checksum, or end
marker (its size is exactly the sum of `12 + length` over the records). -/
theorem c5_binary_format (p : LidarPacket) (ps : List LidarPacket) :
    (encodeRecord p).length = headerSize + p.data.length ∧
    headerSize = 8 + 4 ∧
    (encodeRecord p).take 8 = leBytes 8 p.tsBits ∧
    ((encodeRecord p).drop 8).take 4 = leBytes 4 p.data.length ∧
    (encodeRecord p).drop headerSize = p.data ∧
    writeLog ps = (ps.map encodeRecord).flatten ∧
    (writeLog ps).length = (ps.map (fun q => headerSize + q.data.length)).sum := by
  have h8 : (leBytes 8 p.tsBits).length = 8 := leBytes_length ..
  have h4 : (leBytes 4 p.data.length).length = 4 := leBytes_length ..
  have hhdr : (leBytes 8 p.tsBits ++ leBytes 4 p.data.length).length = headerSize := by
    simp [h8, h4, headerSize]
  have hassoc : encodeRecord p =
      leBytes 8 p.tsBits ++ (leBytes 4 p.data.length ++ p.data) := by
    simp [encodeRecord]
  refine ⟨?_, rfl, ?_, ?_, ?_, rfl, writeLog_length ps⟩
  · rw [hassoc]
    simp [h8, h4, headerSize]
    omega
  · rw [hassoc, List.take_left' h8]
  · rw [hassoc, List.drop_left' h8, List.take_left' h4]
  · rw [encodeRecord, List.drop_left' hhdr]

/-!  Claim C6: timeout is a signal, not an error. -/

/-- Step equations for `recordLoop`, one per loop situation. -/
theorem recordLoop_nil (t0 : ℚ) (dur : Option ℚ) (w : List (ℚ × List Nat))
    (c i : Nat) : recordLoop t0 dur w c i [] = .running w c i := rfl

theorem recordLoop_stop (t0 : ℚ) (dur : Option ℚ) (w : List (ℚ × List Nat))
    (c i : Nat) (now : ℚ) (ev : RecEvent) (rest : List (ℚ × RecEvent))
    (h : durElapsed dur t0 now = true) :
    recordLoop t0 dur w c i ((now, ev) :: rest) =
      .exited .durationDone w c i now := by
  cases ev with
  | timedOut =>
    have e : recordLoop t0 dur w c i ((now, .timedOut) :: rest) =
        if durElapsed dur t0 now then LoopOutcome.exited .durationDone w c i now
        else recordLoop t0 dur w c (i + 1) rest := rfl
    rw [e, h]
    simp
  | pkt ts data =>
    have e : recordLoop t0 dur w c i ((now, .pkt ts data) :: rest) =
        if durElapsed dur t0 now then LoopOutcome.exited .durationDone w c i now
        else recordLoop t0 dur (w ++ [(ts, data)]) (c + 1) i rest := rfl
    rw [e, h]
    simp
  | interrupt =>
    have e : recordLoop t0 dur w c i ((now, .interrupt) :: rest) =
        if durElapsed dur t0 now then LoopOutcome.exited .durationDone w c i now
        else LoopOutcome.exited .interrupted w c i now := rfl
    rw [e, h]
    simp
  | ioError =>
    have e : recordLoop t0 dur w c i ((now, .ioError) :: rest) =
        if durElapsed dur t0 now then LoopOutcome.exited .durationDone w c i now
        else LoopOutcome.exited .ioFailed w c i now := rfl
    rw [e, h]
    simp

theorem recordLoop_timedOut (t0 : ℚ) (dur : Option ℚ) (w : List (ℚ × List Nat))
    (c i : Nat) (now : ℚ) (rest : List (ℚ × RecEvent))
    (h : durElapsed dur t0 now = false) :
    recordLoop t0 dur w c i ((now, .timedOut) :: rest) =
      recordLoop t0 dur w c (i + 1) rest := by
  have e : recordLoop t0 dur w c i ((now, .timedOut) :: rest) =
      if durElapsed dur t0 now then LoopOutcome.exited .durationDone w c i now
      else recordLoop t0 dur w c (i + 1) rest := rfl
  rw [e, h]
  simp

theorem recordLoop_pkt (t0 : ℚ) (dur : Option ℚ) (w : List (ℚ × List Nat))
    (c i : Nat) (now ts : ℚ) (data : List Nat) (rest : List (ℚ × RecEvent))
    (h : durElapsed dur t0 now = false) :
    recordLoop t0 dur w c i ((now, .pkt ts data) :: rest) =
      recordLoop t0 dur (w ++ [(ts, data)]) (c + 1) i rest := by
  have e : recordLoop t0 dur w c i ((now, .pkt ts data) :: rest) =
      if durElapsed dur t0 now then LoopOutcome.exited .durationDone w c i now
      else recordLoop t0 dur (w ++ [(ts, data)]) (c + 1) i rest := rfl
  rw [e, h]
  simp

theorem recordLoop_interrupt (t0 : ℚ) (dur : Option ℚ) (w : List (ℚ × List Nat))
    (c i : Nat) (now : ℚ) (rest : List (ℚ × RecEvent))
    (h : durElapsed dur t0 now = false) :
    recordLoop t0 dur w c i ((now, .interrupt) :: rest) =
      .exited .interrupted w c i now := by
  have e : recordLoop t0 dur w c i ((now, .interrupt) :: rest) =
      if durElapsed dur t0 now then LoopOutcome.exited .durationDone w c i now
      else LoopOutcome.exited .interrupted w c i now := rfl
  rw [e, h]
  simp

theorem recordLoop_ioError (t0 : ℚ) (dur : Option ℚ) (w : List (ℚ × List Nat))
    (c i : Nat) (now : ℚ) (rest : List (ℚ × RecEvent))
    (h : durElapsed dur t0 now = false) :
    recordLoop t0 dur w c i ((now, .ioError) :: rest) =
      .exited .ioFailed w c i now := by
  have e : recordLoop t0 dur w c i ((now, .ioError) :: rest) =
      if durElapsed dur t0 now then LoopOutcome.exited .durationDone w c i now
      else LoopOutcome.exited .ioFailed w c i now := rfl
  rw [e, h]
  simp

/-- Claim C6: `receive` returns the distinguished no-data result `None` on a
timeout instead of raising, and a recording iteration that gets `None` (while
the duration has not elapsed) just logs an idle notice and keeps polling with
its state otherwise unchanged — a timeout never terminates the session. -/
theorem c6_timeout_signal (t0 : ℚ) (dur : Option ℚ) (written : List (ℚ × List Nat))
    (count idles : Nat) (now : ℚ) (rest : List (ℚ × RecEvent))
    (h : durElapsed dur t0 now = false) :
    receive (some ()) .timedOut = .ok none ∧
    recordLoop t0 dur written count idles ((now, .timedOut) :: rest) =
      recordLoop t0 dur written count (idles + 1) rest := by
  refine ⟨rfl, ?_⟩
  exact recordLoop_timedOut t0 dur written count idles now rest h

/-- Witness for C6 with no configured duration. -/
theorem c6_timeout_signal_witness :
    durElapsed none 0 1 = false ∧
    (receive (some ()) .timedOut = .ok none ∧
      recordLoop 0 none [] 0 0 [(1, .timedOut)] = recordLoop 0 none [] 0 1 []) :=
  ⟨rfl, c6_timeout_signal 0 none [] 0 0 1 [] rfl⟩

/-!  Claim C7: guaranteed finalization. -/

/-- Claim C7: whenever a recording session exits — by duration expiry, by
`KeyboardInterrupt`, or by an in-loop I/O error — the `finally` block has
closed the binary file and reported the final packet count and both output
file paths; finalization is never skipped. -/
theorem c7_finalization (t0 : ℚ) (dur : Option ℚ) (trace : List (ℚ × RecEvent))
    (r : RecordResult) (h : record t0 dur trace = some r) :
    (r.exit = .durationDone ∨ r.exit = .interrupted ∨ r.exit = .ioFailed) ∧
    r.closed = true ∧ r.reportedCount = some r.count ∧
    r.reportedBinPath = true ∧ r.reportedMetaPath = true := by
  unfold record at h
  cases hout : recordLoop t0 dur [] 0 0 trace with
  | running w c i =>
    rw [hout] at h
    exact absurd h (by simp)
  | exited e w c i stop =>
    rw [hout] at h
    simp only [Option.some.injEq] at h
    subst h
    refine ⟨?_, rfl, rfl, rfl, rfl⟩
    cases e with
    | durationDone => exact Or.inl rfl
    | interrupted => exact Or.inr (Or.inl rfl)
    | ioFailed => exact Or.inr (Or.inr rfl)

/-- Witness for C7: a session stopped by an interrupt. -/
theorem c7_finalization_witness :
    record 0 none [(0, RecEvent.interrupt)] =
      some ⟨.interrupted, [], 0, 0, true, some 0, true, true⟩ ∧
    (((⟨.interrupted, [], 0, 0, true, some 0, true, true⟩ : RecordResult).exit =
          .durationDone ∨
        (⟨.interrupted, [], 0, 0, true, some 0, true, true⟩ : RecordResult).exit =
          .interrupted ∨
        (⟨.interrupted, [], 0, 0, true, some 0, true, true⟩ : RecordResult).exit =
          .ioFailed) ∧
      (⟨.interrupted, [], 0, 0, true, some 0, true, true⟩ : RecordResult).closed = true ∧
      (⟨.interrupted, [], 0, 0, true, some 0, true, true⟩ : RecordResult).reportedCount =
        some (⟨.interrupted, [], 0, 0, true, some 0, true, true⟩ : RecordResult).count ∧
      (⟨.interrupted, [], 0, 0, true, some 0, true, true⟩ : RecordResult).reportedBinPath =
        true ∧
      (⟨.interrupted, [], 0, 0, true, some 0, true, true⟩ : RecordResult).reportedMetaPath =
        true) :=
  ⟨rfl, c7_finalization 0 none [(0, RecEvent.interrupt)] _ rfl⟩

/-!  Claim C9: timestamp monotonicity. -/

/-- The written records' timestamps are drawn, in order, from the trace's
host-clock readings. -/
theorem recordLoop_written_sublist (t0 : ℚ) (dur : Option ℚ) :
    ∀ (trace : List (ℚ × RecEvent)) (written : List (ℚ × List Nat)) (count idles : Nat),
      ((recordLoop t0 dur written count idles trace).written.map Prod.fst).Sublist
        (written.map Prod.fst ++ eventTimes trace) := by
  intro trace
  induction trace with
  | nil =>
    intro w c i
    rw [recordLoop_nil]
    exact List.sublist_append_left _ _
  | cons entry rest ih =>
    intro w c i
    obtain ⟨now, ev⟩ := entry
    by_cases h : durElapsed dur t0 now = true
    · rw [recordLoop_stop t0 dur w c i now ev rest h]
      exact List.sublist_append_left _ _
    · rw [Bool.not_eq_true] at h
      cases ev with
      | timedOut =>
        rw [recordLoop_timedOut t0 dur w c i now rest h]
        refine (ih w c (i + 1)).trans ?_
        have hev : eventTimes ((now, .timedOut) :: rest) = now :: eventTimes rest := rfl
        rw [hev]
        exact List.Sublist.append_left (List.sublist_cons_self _ _) _
      | pkt ts data =>
        rw [recordLoop_pkt t0 dur w c i now ts data rest h]
        refine ((ih (w ++ [(ts, data)]) (c + 1) i).trans ?_)
        have hev : eventTimes ((now, .pkt ts data) :: rest) =
            now :: ts :: eventTimes rest := rfl
        rw [hev, List.map_append, List.append_assoc]
        refine List.Sublist.append_left ?_ _
        have h1 : ([((ts : ℚ), data)].map Prod.fst) ++ eventTimes rest =
            ts :: eventTimes rest := rfl
        rw [h1]
        exact List.sublist_cons_self _ _
      | interrupt =>
        rw [recordLoop_interrupt t0 dur w c i now rest h]
        exact List.sublist_append_left _ _
      | ioError =>
        rw [recordLoop_ioError t0 dur w c i now rest h]
        exact List.sublist_append_left _ _

/-- Claim C9: if the host clock readings taken during a capture session are
non-decreasing in program order (timestamps are assigned from the host clock
at receive time), then the timestamps written to the log file, in file
order, are monotonically non-decreasing. -/
theorem c9_monotonic (t0 : ℚ) (dur : Option ℚ) (trace : List (ℚ × RecEvent))
    (h : (eventTimes trace).Chain' (· ≤ ·)) :
    ((recordLoop t0 dur [] 0 0 trace).written.map Prod.fst).Chain' (· ≤ ·) := by
  have hs := recordLoop_written_sublist t0 dur trace [] 0 0
  rw [List.map_nil, List.nil_append] at hs
  exact h.sublist hs

/-- Witness for C9: a monotone two-packet session. -/
theorem c9_monotonic_witness :
    (eventTimes [(0, RecEvent.pkt 1 [5]), (2, RecEvent.pkt 3 []),
        (4, RecEvent.timedOut)]).Chain' (· ≤ ·) ∧
    ((recordLoop 0 none [] 0 0 [(0, RecEvent.pkt 1 [5]), (2, RecEvent.pkt 3 []),
        (4, RecEvent.timedOut)]).written.map Prod.fst).Chain' (· ≤ ·) :=
  ⟨by simp only [eventTimes, List.chain'_cons, List.chain'_singleton, and_true]; decide,
    c9_monotonic 0 none _
      (by simp only [eventTimes, List.chain'_cons, List.chain'_singleton, and_true]; decide)⟩

/-!  Claim C8: duration bound.  The code checks the elapsed time at the top
of each iteration, before receiving; a packet whose receive completes after
the cutoff but whose iteration began before it is still written.  So the
original claim's "only records received before the cutoff" fails, and the
provable bound is "received before cutoff + one receive-timeout". -/

/-- `durElapsed (some d) t0 now = false` means the check passed: `now` is
still before the cutoff. -/
theorem durElapsed_false_iff (d t0 now : ℚ) :
    durElapsed (some d) t0 now = false ↔ now < t0 + d := by
  simp only [durElapsed, decide_eq_false_iff_not, not_le]
  constructor <;> intro h <;> linarith

/-- Main induction for the duration bound, generalized over the loop state:
if the trace's first check is not after `t0 + d + 5`, consecutive checks are
at most one timeout apart, no interrupt or I/O error occurs, some check lies
at or past the cutoff, every packet is received within one timeout of its
iteration's check, and all already-written records were received before
`t0 + d + 5`, then the loop exits by duration expiry no later than
`t0 + d + 5` and every record in the file was received before `t0 + d + 5`. -/
theorem c8_loop (t0 d : ℚ) :
    ∀ (trace : List (ℚ × RecEvent)) (w : List (ℚ × List Nat)) (c i : Nat),
      (∀ e ∈ trace.head?, e.1 ≤ t0 + d + 5) →
      trace.Chain' (fun a b => b.1 ≤ a.1 + 5) →
      (∀ e ∈ trace, e.2 ≠ RecEvent.interrupt ∧ e.2 ≠ RecEvent.ioError) →
      (∃ e ∈ trace, t0 + d ≤ e.1) →
      (∀ e ∈ trace, ∀ ts data, e.2 = RecEvent.pkt ts data → ts ≤ e.1 + 5) →
      (∀ r ∈ w, r.1 < t0 + d + 5) →
      ∃ w2 c2 i2 stop, recordLoop t0 (some d) w c i trace =
          .exited .durationDone w2 c2 i2 stop ∧
        stop ≤ t0 + d + 5 ∧ ∀ r ∈ w2, r.1 < t0 + d + 5 := by
  intro trace
  induction trace with
  | nil =>
    intro w c i _ _ _ hpast _ _
    obtain ⟨e, he, _⟩ := hpast
    exact absurd he (List.not_mem_nil e)
  | cons entry rest ih =>
    intro w c i hhead hgap hnoterm hpast hrecv hw
    obtain ⟨now, ev⟩ := entry
    by_cases hstop : durElapsed (some d) t0 now = true
    · rw [recordLoop_stop t0 (some d) w c i now ev rest hstop]
      exact ⟨w, c, i, now, rfl, hhead (now, ev) rfl, hw⟩
    · rw [Bool.not_eq_true, durElapsed_false_iff] at hstop
      have hhead2 : ∀ e ∈ rest.head?, e.1 ≤ t0 + d + 5 := by
        intro e he
        have hrel := (List.chain'_cons'.mp hgap).1 e he
        simp only at hrel
        linarith
      have hgap2 : rest.Chain' (fun a b => b.1 ≤ a.1 + 5) :=
        (List.chain'_cons'.mp hgap).2
      have hnoterm2 : ∀ e ∈ rest, e.2 ≠ RecEvent.interrupt ∧ e.2 ≠ RecEvent.ioError :=
        fun e he => hnoterm e (List.mem_cons_of_mem _ he)
      have hpast2 : ∃ e ∈ rest, t0 + d ≤ e.1 := by
        obtain ⟨e, he, hpe⟩ := hpast
        rcases List.mem_cons.mp he with heq | hin
        · subst heq
          simp only at hpe
          linarith
        · exact ⟨e, hin, hpe⟩
      have hrecv2 : ∀ e ∈ rest, ∀ ts data, e.2 = RecEvent.pkt ts data → ts ≤ e.1 + 5 :=
        fun e he => hrecv e (List.mem_cons_of_mem _ he)
      have hstopb : durElapsed (some d) t0 now = false :=
        (durElapsed_false_iff d t0 now).mpr hstop
      cases ev with
      | timedOut =>
        rw [recordLoop_timedOut t0 (some d) w c i now rest hstopb]
        exact ih w c (i + 1) hhead2 hgap2 hnoterm2 hpast2 hrecv2 hw
      | pkt ts data =>
        rw [recordLoop_pkt t0 (some d) w c i now ts data rest hstopb]
        refine ih (w ++ [(ts, data)]) (c + 1) i hhead2 hgap2 hnoterm2 hpast2 hrecv2 ?_
        intro r hr
        rcases List.mem_append.mp hr with hin | hnew
        · exact hw r hin
        · have hts := hrecv (now, .pkt ts data) (List.mem_cons_self ..) ts data rfl
          simp only at hts
          rw [List.mem_singleton] at hnew
          subst hnew
          simp only
          linarith
      | interrupt =>
        exact absurd rfl (hnoterm (now, .interrupt) (List.mem_cons_self ..)).1
      | ioError =>
        exact absurd rfl (hnoterm (now, .ioError) (List.mem_cons_self ..)).2

/-- Claim C8, amended: for a session with finite duration `d ≥ 0` against a
source that keeps delivering (no interrupt, no I/O error, the checks reach
the cutoff), where the first check happens within one receive-timeout of
start, consecutive checks are at most one receive-timeout (5 s) apart, and
each packet is received within one timeout of its iteration's check, the
loop — which checks elapsed time once per iteration before receiving —
exits by duration expiry at a check no later than `t0 + d + 5` (one
receive-timeout past the cutoff), and every record in the output file was
received strictly before `t0 + d + 5`.  (As written, the original claim's
stronger "only records received before the cutoff" is refuted by
`c8_duration_counterexample`.) -/
theorem c8_duration_amended (t0 d : ℚ) (trace : List (ℚ × RecEvent))
    (hd : 0 ≤ d)
    (hhead : ∀ e ∈ trace.head?, e.1 ≤ t0 + 5)
    (hgap : trace.Chain' (fun a b => b.1 ≤ a.1 + 5))
    (hnoterm : ∀ e ∈ trace, e.2 ≠ RecEvent.interrupt ∧ e.2 ≠ RecEvent.ioError)
    (hpast : ∃ e ∈ trace, t0 + d ≤ e.1)
    (hrecv : ∀ e ∈ trace, ∀ ts data, e.2 = RecEvent.pkt ts data → ts ≤ e.1 + 5) :
    ∃ w c i stop, recordLoop t0 (some d) [] 0 0 trace =
        .exited .durationDone w c i stop ∧
      stop ≤ t0 + d + 5 ∧ ∀ r ∈ w, r.1 < t0 + d + 5 := by
  refine c8_loop t0 d trace [] 0 0 ?_ hgap hnoterm hpast hrecv ?_
  · intro e he
    have := hhead e he
    linarith
  · intro r hr
    exact absurd hr (List.not_mem_nil r)

/-- Witness for the amended C8 at a session whose only iteration already
finds the duration expired. -/
theorem c8_duration_amended_witness :
    ((0 : ℚ) ≤ 0 ∧
      (∀ e ∈ [((0 : ℚ), RecEvent.timedOut)].head?, e.1 ≤ 0 + 5) ∧
      ([((0 : ℚ), RecEvent.timedOut)].Chain' (fun a b => b.1 ≤ a.1 + 5)) ∧
      (∀ e ∈ [((0 : ℚ), RecEvent.timedOut)],
        e.2 ≠ RecEvent.interrupt ∧ e.2 ≠ RecEvent.ioError) ∧
      (∃ e ∈ [((0 : ℚ), RecEvent.timedOut)], 0 + 0 ≤ e.1) ∧
      (∀ e ∈ [((0 : ℚ), RecEvent.timedOut)], ∀ ts data,
        e.2 = RecEvent.pkt ts data → ts ≤ e.1 + 5)) ∧
    (∃ w c i stop, recordLoop 0 (some 0) [] 0 0 [((0 : ℚ), RecEvent.timedOut)] =
        .exited .durationDone w c i stop ∧
      stop ≤ 0 + 0 + 5 ∧ ∀ r ∈ w, r.1 < 0 + 0 + 5) :=
  ⟨⟨by decide,
      by intro e he; simp at he; subst he; simp only [zero_add]; decide,
      by simp, by decide,
      ⟨(0, RecEvent.timedOut), by simp, by simp⟩, by simp⟩,
    c8_duration_amended 0 0 _ (by decide)
      (by intro e he; simp at he; subst he; simp only [zero_add]; decide)
      (by simp) (by decide)
      ⟨(0, RecEvent.timedOut), by simp, by simp⟩ (by simp)⟩

/-- Counterexample to C8 as stated: a physically consistent session
(first check at start, checks at most one timeout apart, each packet
received within one timeout of its check) with duration 2 s whose file
contains a record received at time 5, after the `t0 + d = 2` cutoff: the
iteration's check at time 1 preceded the cutoff, the receive completed
after it, and the record was written. -/
theorem c8_duration_counterexample :
    recordLoop 0 (some 2) [] 0 0
        [((0 : ℚ), RecEvent.pkt 1 []), (1, RecEvent.pkt 5 [42]),
          (5, RecEvent.timedOut)] =
      .exited .durationDone [((1 : ℚ), []), (5, [42])] 2 0 5 ∧
    List.Chain' (fun a b => b.1 ≤ a.1 + 5)
      [((0 : ℚ), RecEvent.pkt 1 []), (1, RecEvent.pkt 5 [42]),
        (5, RecEvent.timedOut)] ∧
    (∀ e ∈ [((0 : ℚ), RecEvent.pkt 1 []), (1, RecEvent.pkt 5 [42]),
        (5, RecEvent.timedOut)],
      ∀ ts data, e.2 = RecEvent.pkt ts data → e.1 ≤ ts ∧ ts ≤ e.1 + 5) ∧
    ¬ ((5 : ℚ) ≤ 0 + 2) := by
  have h1 : durElapsed (some 2) 0 0 = false := by
    simp only [durElapsed, decide_eq_false_iff_not]
    norm_num
  have h2 : durElapsed (some 2) 0 1 = false := by
    simp only [durElapsed, decide_eq_false_iff_not]
    norm_num
  have h3 : durElapsed (some 2) 0 5 = true := by
    simp only [durElapsed, decide_eq_true_eq]
    norm_num
  refine ⟨?_, ?_, ?_, by norm_num⟩
  · rw [recordLoop_pkt _ _ _ _ _ _ _ _ _ h1, recordLoop_pkt _ _ _ _ _ _ _ _ _ h2,
      recordLoop_stop _ _ _ _ _ _ _ _ h3]
    rfl
  · simp only [List.chain'_cons, List.chain'_singleton, and_true]
    norm_num
  · intro e he ts data hpk
    simp only [List.mem_cons, List.not_mem_nil, or_false] at he
    rcases he with rfl | rfl | rfl
    · replace hpk : RecEvent.pkt 1 [] = RecEvent.pkt ts data := hpk
      injection hpk with hts hdata
      subst hts
      constructor <;> norm_num
    · replace hpk : RecEvent.pkt 5 [42] = RecEvent.pkt ts data := hpk
      injection hpk with hts hdata
      subst hts
      constructor <;> norm_num
    · exact absurd (show RecEvent.timedOut = RecEvent.pkt ts data from hpk) (by simp)

/-!  Claim C10: receive before connect. -/

/-- Claim C10: calling `receive` while the socket handle is still unset
always raises `RuntimeError`, whatever the network would have delivered; no
receive from an unbound socket is attempted. -/
theorem c10_receive_unbound (ev : NetEvent) :
    receive none ev = .error .runtimeError := rfl

end LidarSpec
